import Mathlib

/-!
# Verification of `gurobi_ml/modeling/neuralnet/activations.py`

A shallow embedding of the activation-encoding module.  The gurobipy model is
embedded as an explicit state (`GpModel`) holding the created variables, the
number of committed (updated) variables, and the list of emitted constraints as
a syntactic AST; constraint satisfaction over real assignments is a separate
semantic predicate.  A numpy `MVar` array is embedded as a contiguous block of
variable ids together with its shape; elementwise iteration follows
`np.ndindex` in row-major order.  Python's attribute presence tests
(`hasattr`) and the possibility of `AttributeError` / `UnboundLocalError` are
modelled explicitly: each `mip_model` returns the mutated model and layer
together with an optional raised error, since in Python the model object
retains all additions made before an exception escapes.
-/

namespace GurobiML

/-- A variable bound: `-GRB.INFINITY`, `+GRB.INFINITY`, or a finite value. -/
inductive Bound where
  | neginf : Bound
  | posinf : Bound
  | val : ℚ → Bound
deriving DecidableEq, Repr

/-- Variable type (`GRB.CONTINUOUS`, `GRB.INTEGER`, `GRB.BINARY`). -/
inductive VType where
  | continuous : VType
  | integer : VType
  | binary : VType
deriving DecidableEq, Repr

/-- Per-variable data kept by the model: bounds (mutable via `setAttr`) and
the variable type. -/
structure VarInfo where
  lb : Bound
  ub : Bound
  vtype : VType
deriving DecidableEq, Repr

/-- Number of elements of a tensor shape (product of its dimensions). -/
def shapeSize (s : List Nat) : Nat := s.foldr (· * ·) 1

/-- Mirror of `np.ndindex` over a shape: all multi-indices in row-major order. -/
def ndindex : List Nat → List (List Nat)
  | [] => [[]]
  | d :: ds => (List.range d).flatMap fun i => (ndindex ds).map fun t => i :: t

/-- An `MVar` array returned by `gp_model.addMVar` (or pre-existing on the
layer): a contiguous block of variable ids `start, start+1, …` in row-major
order, with its shape and base name. -/
structure MVar where
  shape : List Nat
  start : Nat
  name : String
deriving DecidableEq, Repr

/-- Number of scalar variables in the array. -/
def MVar.size (a : MVar) : Nat := shapeSize a.shape

/-- The variable id of the element at row-major position `p`. -/
def MVar.id (a : MVar) (p : Nat) : Nat := a.start + p

/-- All variable ids of the array. -/
def MVar.ids (a : MVar) : List Nat := List.range' a.start a.size

/-- Affine parameters of a layer: `layer.coefs` (weight matrix, row `i` =
weights of input element `i`) and `layer.intercept` (bias vector). -/
structure AffineParams where
  coefs : List (List ℚ)
  intercept : List ℚ
deriving DecidableEq, Repr

/-- The constraint AST.  Each constructor mirrors one constraint-adding call
in the source:
* `affineEq lhs inp C b` — `addConstr(lhs == inp @ C + b)` (whole-array);
* `linEqNeg a b` — `addConstr(x[idx] == -mixing[idx])`;
* `genExp a b` — `addGenConstrExp(x[idx], exp_x[idx])`, i.e. `b == exp a`;
* `linEqOnePlus a b` — `addConstr(exp_sum[idx] == 1 + exp_x[idx])`;
* `bilinEqOne a b nm` — `addConstr(output[idx] * exp_sum[idx] == 1, name=nm)`;
* `genMax r ops c nm` — `addGenConstrMax(output[idx], [..], constant=c, name=nm)`. -/
inductive Constr where
  | affineEq : MVar → MVar → List (List ℚ) → List ℚ → Constr
  | linEqNeg : Nat → Nat → Constr
  | genExp : Nat → Nat → Constr
  | linEqOnePlus : Nat → Nat → Constr
  | bilinEqOne : Nat → Nat → String → Constr
  | genMax : Nat → List Nat → ℚ → String → Constr
deriving DecidableEq, Repr

/-- The variable ids a constraint references. -/
def Constr.refs : Constr → List Nat
  | .affineEq lhs inp _ _ => lhs.ids ++ inp.ids
  | .linEqNeg a b => [a, b]
  | .genExp a b => [a, b]
  | .linEqOnePlus a b => [a, b]
  | .bilinEqOne a b _ => [a, b]
  | .genMax r ops _ _ => r :: ops

/-- The gurobipy model state: the variables created so far (index = variable
id), how many of them have been committed by `update()`, whether every
constraint added so far referenced only committed variables, and the emitted
constraints in order. -/
structure GpModel where
  vars : List VarInfo
  committed : Nat
  refsOk : Bool
  constrs : List Constr
deriving DecidableEq, Repr

/-- Embedding of `gp_model.addMVar(shape, lb, vtype, name)`: create a fresh contiguous
array of `shapeSize shape` variables (uncommitted until `update`). The upper
bound defaults to `+GRB.INFINITY`. -/
def GpModel.addMVar (m : GpModel) (shape : List Nat) (lb : Bound) (vtype : VType)
    (name : String) : MVar × GpModel :=
  (⟨shape, m.vars.length, name⟩,
   { m with vars := m.vars ++ List.replicate (shapeSize shape) ⟨lb, Bound.posinf, vtype⟩ })

/-- Embedding of `gp_model.update()`: commit all pending variable creations. -/
def GpModel.update (m : GpModel) : GpModel := { m with committed := m.vars.length }

/-- Add one constraint; record whether it referenced only committed variables. -/
def GpModel.addConstr (m : GpModel) (c : Constr) : GpModel :=
  { m with
      constrs := m.constrs ++ [c],
      refsOk := m.refsOk && c.refs.all (· < m.committed) }

/-- Add a list of constraints in order. -/
def GpModel.addConstrList (m : GpModel) (cs : List Constr) : GpModel :=
  cs.foldl GpModel.addConstr m

/-- Apply `f` to the data of every variable whose id is in `ids`; `i` is the
id of the first entry of the list. -/
def overwriteAt (f : VarInfo → VarInfo) (ids : List Nat) : Nat → List VarInfo → List VarInfo
  | _, [] => []
  | i, vi :: rest => (if i ∈ ids then f vi else vi) :: overwriteAt f ids (i + 1) rest

/-- Embedding of `array.setAttr("lb", q)`: overwrite the lower bound of every variable of
the array. -/
def GpModel.setLb (m : GpModel) (a : MVar) (q : ℚ) : GpModel :=
  { m with vars := overwriteAt (fun vi => { vi with lb := Bound.val q }) a.ids 0 m.vars }

/-- Embedding of `array.setAttr("ub", q)`: overwrite the upper bound of every variable of
the array. -/
def GpModel.setUb (m : GpModel) (a : MVar) (q : ℚ) : GpModel :=
  { m with vars := overwriteAt (fun vi => { vi with ub := Bound.val q }) a.ids 0 m.vars }

/-- The layer object handed to `mip_model`.  `coefs?` bundles the presence of
the `coefs`/`intercept` attributes (`hasattr(layer, "coefs")`); `mixing?` is
the optional `mixing` attribute; `xAttr`, `expXAttr`, `expSumAttr` record
whether attributes named `x`, `exp_x`, `exp_sum` happen to exist on the layer
object (the source tests them with `hasattr` but never sets them).
`inputArr` plays both `layer.input` and `layer._input`. -/
structure Layer where
  inputArr : MVar
  outputArr : MVar
  coefs? : Option AffineParams
  mixing? : Option MVar
  xAttr : Bool
  expXAttr : Bool
  expSumAttr : Bool
  baseName : String
deriving DecidableEq, Repr

/-- Modelled from the spec: `layer._name_var(role)` is not under `src/`; the
spec says names come from a caller-supplied per-layer base name plus a role
tag. -/
def nameVar (base role : String) : String := base ++ "_" ++ role

/-- Modelled from the spec: `layer._indexed_name(index, role)` is not under
`src/`; the spec says the naming function maps `(element index, role)` to a
string built from the per-layer base name, an element-index suffix and the
role tag. -/
def indexedName (base : String) (index : List Nat) (role : String) : String :=
  base ++ "[" ++ String.intercalate "," (index.map toString) ++ "]_" ++ role

/-- A Python error escaping a `mip_model` call. -/
inductive PyErr where
  | attributeError : String → PyErr
  | unboundLocal : String → PyErr
deriving DecidableEq, Repr

/-- Result of a `mip_model` call: the model and layer as mutated by the call
(in Python both outlive an exception), plus the raised error, if any. -/
structure RunResult where
  model : GpModel
  layer : Layer
  err : Option PyErr
deriving DecidableEq, Repr

/-- Row-major positions paired with their `np.ndindex` multi-indices, the
iteration space of the `for index in np.ndindex(output.shape)` loops. -/
def enumNd (shape : List Nat) : List (Nat × List Nat) := (ndindex shape).enum

namespace Identity

/-- Embedding of `Identity.mip_model(layer)`: unconditionally adds
`output == layer.input @ layer.coefs + layer.intercept`.  When the layer has
no `coefs` attribute the attribute access raises `AttributeError` before any
constraint is added. -/
def mipModel (layer : Layer) (m : GpModel) : RunResult :=
  let output := layer.outputArr
  match layer.coefs? with
  | none => ⟨m, layer, some (.attributeError "coefs")⟩
  | some aff =>
      ⟨m.addConstr (.affineEq output layer.inputArr aff.coefs aff.intercept), layer, none⟩

end Identity

/-- The shared affine-stage code of `ReLU.mip_model` and `SiLU.mip_model`
(the `if hasattr(layer, "coefs")` branch body, textually identical in both):
lazily create the `mixing` array, `update()`, and add
`layer.mixing == layer.input @ layer.coefs + layer.intercept`.  Returns the
value of the *local* variable `mixing` (unbound when the attribute already
existed), the updated layer and model. -/
def affineStage (layer : Layer) (m : GpModel) (aff : AffineParams) :
    Option MVar × Layer × GpModel :=
  match layer.mixing? with
  | some mv =>
      let m := m.update
      (none, layer,
       m.addConstr (.affineEq mv layer.inputArr aff.coefs aff.intercept))
  | none =>
      let (mv, m) := m.addMVar layer.outputArr.shape Bound.neginf VType.continuous
        (nameVar layer.baseName "mix")
      let layer := { layer with mixing? := some mv }
      let m := m.update
      (some mv, layer,
       m.addConstr (.affineEq mv layer.inputArr aff.coefs aff.intercept))

namespace ReLU

/-- The `for index in np.ndindex(output.shape)` loop of `ReLU.mip_model`.
`mix?` is the value of the local variable `mixing`; referencing it while
unbound raises `UnboundLocalError` (before any constraint of that iteration
is added, since the operand list is evaluated before `addGenConstrMax` runs). -/
def loop (mix? : Option MVar) (output : MVar) (base : String) :
    GpModel → List (Nat × List Nat) → GpModel × Option PyErr
  | m, [] => (m, none)
  | m, (p, idx) :: rest =>
      match mix? with
      | none => (m, some (.unboundLocal "mixing"))
      | some mixing =>
          loop mix? output base
            (m.addConstr (.genMax (output.id p) [mixing.id p] 0
              (indexedName base idx "relu"))) rest

/-- Embedding of `ReLU.mip_model(layer)`. -/
def mipModel (layer : Layer) (m : GpModel) : RunResult :=
  let output := layer.outputArr
  match layer.coefs? with
  | some aff =>
      let (mix?, layer, m) := affineStage layer m aff
      let (m, err) := loop mix? output layer.baseName m (enumNd output.shape)
      ⟨m, layer, err⟩
  | none =>
      let (m, err) := loop (some layer.inputArr) output layer.baseName m
        (enumNd output.shape)
      ⟨m, layer, err⟩

end ReLU

namespace SiLU

/-- The `for index in np.ndindex(output.shape)` loop of `SiLU.mip_model`.
Each of `mix?`, `x?`, `expX?`, `expSum?` is the value of the corresponding
local variable, unbound (`none`) when the `hasattr` guard skipped its
creation.  Locals are referenced in source order within each iteration:
`x[index] == -mixing[index]`, then `addGenConstrExp(x[index], exp_x[index])`,
then `exp_sum[index] == 1 + exp_x[index]`, then
`output[index] * exp_sum[index] == 1`; an unbound local raises at its first
reference, after the constraints already added in that iteration. -/
def loop (mix? x? expX? expSum? : Option MVar) (output : MVar) (base : String) :
    GpModel → List (Nat × List Nat) → GpModel × Option PyErr
  | m, [] => (m, none)
  | m, (p, idx) :: rest =>
      match x? with
      | none => (m, some (.unboundLocal "x"))
      | some x =>
      match mix? with
      | none => (m, some (.unboundLocal "mixing"))
      | some mixing =>
        let m := m.addConstr (.linEqNeg (x.id p) (mixing.id p))
        match expX? with
        | none => (m, some (.unboundLocal "exp_x"))
        | some expX =>
          let m := m.addConstr (.genExp (x.id p) (expX.id p))
          match expSum? with
          | none => (m, some (.unboundLocal "exp_sum"))
          | some expSum =>
            let m := m.addConstr (.linEqOnePlus (expSum.id p) (expX.id p))
            let m := m.addConstr (.bilinEqOne (output.id p) (expSum.id p)
              (indexedName base idx "silu"))
            loop mix? x? expX? expSum? output base m rest

/-- Embedding of `SiLU.mip_model(layer)`: set the bounds of `output` to `[0, 1]`, run the
affine stage if `coefs` is present (else the local `mixing` is the raw
input), lazily create the `x`, `exp_x`, `exp_sum` auxiliaries (each guarded
by `hasattr` on the layer, but never stored on it), then emit the elementwise
constraints. -/
def mipModel (layer : Layer) (m : GpModel) : RunResult :=
  let output := layer.outputArr
  let m := m.setLb output 0
  let m := m.setUb output 1
  let (mix?, layer, m) :=
    match layer.coefs? with
    | some aff => affineStage layer m aff
    | none => (some layer.inputArr, layer, m)
  let (x?, m) :=
    if layer.xAttr then (none, m)
    else
      let (v, m) := m.addMVar output.shape Bound.neginf VType.continuous
        (nameVar layer.baseName "x")
      (some v, m)
  let (expX?, m) :=
    if layer.expXAttr then (none, m)
    else
      let (v, m) := m.addMVar output.shape Bound.neginf VType.continuous
        (nameVar layer.baseName "exp_x")
      (some v, m)
  let (expSum?, m) :=
    if layer.expSumAttr then (none, m)
    else
      let (v, m) := m.addMVar output.shape Bound.neginf VType.continuous
        (nameVar layer.baseName "exp_sum")
      (some v, m)
  let (m, err) := loop mix? x? expX? expSum? output layer.baseName m
    (enumNd output.shape)
  ⟨m, layer, err⟩

end SiLU

/-! ## Constraint semantics over real assignments -/

/-- Satisfaction of one constraint by an assignment `v` of reals to variable
ids.  `affineEq` is elementwise over the left-hand array with the numpy
vector–matrix product `inp @ C + b`; `genMax` is Gurobi's max of the operands
and the constant; `genExp` is `second == exp first`. -/
def Constr.sat (v : Nat → ℝ) : Constr → Prop
  | .affineEq lhs inp C b =>
      ∀ j < lhs.size,
        v (lhs.id j) =
          (∑ i ∈ Finset.range inp.size, v (inp.id i) * ((C.getD i []).getD j 0 : ℚ))
            + ((b.getD j 0 : ℚ) : ℝ)
  | .linEqNeg a b => v a = - v b
  | .genExp a b => v b = Real.exp (v a)
  | .linEqOnePlus a b => v a = 1 + v b
  | .bilinEqOne a b _ => v a * v b = 1
  | .genMax r ops c _ => v r = (ops.map v).foldr max (c : ℝ)

/-- An assignment satisfies a list of constraints. -/
def satList (v : Nat → ℝ) (cs : List Constr) : Prop := ∀ c ∈ cs, c.sat v

/-! ## Basic lemmas about the model state operations -/

@[simp] lemma ndindex_length (s : List Nat) : (ndindex s).length = shapeSize s := by
  induction s with
  | nil => rfl
  | cons d ds ih =>
      simp only [ndindex, List.length_flatMap, Function.comp_def, List.length_map,
        List.map_const', List.sum_replicate, smul_eq_mul, ih, shapeSize,
        List.length_range, List.foldr_cons]

@[simp] lemma enumNd_length (s : List Nat) : (enumNd s).length = shapeSize s := by
  simp [enumNd]

lemma enumNd_ne_nil {s : List Nat} (h : 0 < shapeSize s) : enumNd s ≠ [] := by
  intro hnil
  rw [← enumNd_length s, hnil] at h
  simp at h

@[simp] lemma addMVar_fst (m : GpModel) (shape lb vtype name) :
    (m.addMVar shape lb vtype name).1 = ⟨shape, m.vars.length, name⟩ := rfl

@[simp] lemma addMVar_vars (m : GpModel) (shape lb vtype name) :
    (m.addMVar shape lb vtype name).2.vars
      = m.vars ++ List.replicate (shapeSize shape) ⟨lb, Bound.posinf, vtype⟩ := rfl

@[simp] lemma addMVar_committed (m : GpModel) (shape lb vtype name) :
    (m.addMVar shape lb vtype name).2.committed = m.committed := rfl

@[simp] lemma addMVar_constrs (m : GpModel) (shape lb vtype name) :
    (m.addMVar shape lb vtype name).2.constrs = m.constrs := rfl

@[simp] lemma addMVar_refsOk (m : GpModel) (shape lb vtype name) :
    (m.addMVar shape lb vtype name).2.refsOk = m.refsOk := rfl

@[simp] lemma update_vars (m : GpModel) : m.update.vars = m.vars := rfl

@[simp] lemma update_committed (m : GpModel) : m.update.committed = m.vars.length := rfl

@[simp] lemma update_constrs (m : GpModel) : m.update.constrs = m.constrs := rfl

@[simp] lemma update_refsOk (m : GpModel) : m.update.refsOk = m.refsOk := rfl

@[simp] lemma addConstr_vars (m : GpModel) (c : Constr) :
    (m.addConstr c).vars = m.vars := rfl

@[simp] lemma addConstr_committed (m : GpModel) (c : Constr) :
    (m.addConstr c).committed = m.committed := rfl

@[simp] lemma addConstr_constrs (m : GpModel) (c : Constr) :
    (m.addConstr c).constrs = m.constrs ++ [c] := rfl

@[simp] lemma addConstr_refsOk (m : GpModel) (c : Constr) :
    (m.addConstr c).refsOk = (m.refsOk && c.refs.all (· < m.committed)) := rfl

@[simp] lemma addConstrList_nil (m : GpModel) : m.addConstrList [] = m := rfl

@[simp] lemma addConstrList_cons (m : GpModel) (c : Constr) (cs : List Constr) :
    m.addConstrList (c :: cs) = (m.addConstr c).addConstrList cs := rfl

lemma addConstrList_append (m : GpModel) (cs ds : List Constr) :
    m.addConstrList (cs ++ ds) = (m.addConstrList cs).addConstrList ds := by
  simp [GpModel.addConstrList, List.foldl_append]

@[simp] lemma addConstrList_vars (m : GpModel) (cs : List Constr) :
    (m.addConstrList cs).vars = m.vars := by
  induction cs generalizing m with
  | nil => rfl
  | cons c cs ih => simp [ih]

@[simp] lemma addConstrList_committed (m : GpModel) (cs : List Constr) :
    (m.addConstrList cs).committed = m.committed := by
  induction cs generalizing m with
  | nil => rfl
  | cons c cs ih => simp [ih]

@[simp] lemma addConstrList_constrs (m : GpModel) (cs : List Constr) :
    (m.addConstrList cs).constrs = m.constrs ++ cs := by
  induction cs generalizing m with
  | nil => simp
  | cons c cs ih => simp [ih]

lemma addConstrList_refsOk (m : GpModel) (cs : List Constr) :
    (m.addConstrList cs).refsOk
      = (m.refsOk && cs.all fun c => c.refs.all (· < m.committed)) := by
  induction cs generalizing m with
  | nil => simp
  | cons c cs ih => simp [ih, Bool.and_assoc]

@[simp] lemma overwriteAt_length (f : VarInfo → VarInfo) (ids : List Nat) :
    ∀ (l : List VarInfo) (s : Nat), (overwriteAt f ids s l).length = l.length
  | [], _ => rfl
  | vi :: rest, s => by simp [overwriteAt, overwriteAt_length f ids rest (s + 1)]

@[simp] lemma setLb_vars_length (m : GpModel) (a : MVar) (q : ℚ) :
    (m.setLb a q).vars.length = m.vars.length := by
  simp [GpModel.setLb]

@[simp] lemma setUb_vars_length (m : GpModel) (a : MVar) (q : ℚ) :
    (m.setUb a q).vars.length = m.vars.length := by
  simp [GpModel.setUb]

@[simp] lemma setLb_committed (m : GpModel) (a : MVar) (q : ℚ) :
    (m.setLb a q).committed = m.committed := rfl

@[simp] lemma setUb_committed (m : GpModel) (a : MVar) (q : ℚ) :
    (m.setUb a q).committed = m.committed := rfl

@[simp] lemma setLb_constrs (m : GpModel) (a : MVar) (q : ℚ) :
    (m.setLb a q).constrs = m.constrs := rfl

@[simp] lemma setUb_constrs (m : GpModel) (a : MVar) (q : ℚ) :
    (m.setUb a q).constrs = m.constrs := rfl

@[simp] lemma setLb_refsOk (m : GpModel) (a : MVar) (q : ℚ) :
    (m.setLb a q).refsOk = m.refsOk := rfl

@[simp] lemma setUb_refsOk (m : GpModel) (a : MVar) (q : ℚ) :
    (m.setUb a q).refsOk = m.refsOk := rfl

/-! ## Normal forms of the emitted elementwise constraints -/

/-- The elementwise max constraints `ReLU.mip_model` emits over `mix`. -/
def reluConstrs (mix output : MVar) (base : String) (shape : List Nat) : List Constr :=
  (enumNd shape).map fun pi =>
    .genMax (output.id pi.1) [mix.id pi.1] 0 (indexedName base pi.2 "relu")

/-- The elementwise constraints `SiLU.mip_model` emits over `mix` with
auxiliaries `x`, `expX`, `expSum`. -/
def siluConstrs (mix x expX expSum output : MVar) (base : String) (shape : List Nat) :
    List Constr :=
  (enumNd shape).flatMap fun pi =>
    [ .linEqNeg (x.id pi.1) (mix.id pi.1),
      .genExp (x.id pi.1) (expX.id pi.1),
      .linEqOnePlus (expSum.id pi.1) (expX.id pi.1),
      .bilinEqOne (output.id pi.1) (expSum.id pi.1) (indexedName base pi.2 "silu") ]

lemma reluLoop_some (mix output : MVar) (base : String) (m : GpModel)
    (items : List (Nat × List Nat)) :
    ReLU.loop (some mix) output base m items
      = (m.addConstrList (items.map fun pi =>
          .genMax (output.id pi.1) [mix.id pi.1] 0 (indexedName base pi.2 "relu")),
         none) := by
  induction items generalizing m with
  | nil => rfl
  | cons pi rest ih => cases pi; simp [ReLU.loop, ih]

lemma reluLoop_none (output : MVar) (base : String) (m : GpModel)
    (items : List (Nat × List Nat)) (h : items ≠ []) :
    ReLU.loop none output base m items = (m, some (.unboundLocal "mixing")) := by
  cases items with
  | nil => exact absurd rfl h
  | cons pi rest => cases pi; rfl

lemma siluLoop_some (mix x expX expSum output : MVar) (base : String) (m : GpModel)
    (items : List (Nat × List Nat)) :
    SiLU.loop (some mix) (some x) (some expX) (some expSum) output base m items
      = (m.addConstrList (items.flatMap fun pi =>
          [ .linEqNeg (x.id pi.1) (mix.id pi.1),
            .genExp (x.id pi.1) (expX.id pi.1),
            .linEqOnePlus (expSum.id pi.1) (expX.id pi.1),
            .bilinEqOne (output.id pi.1) (expSum.id pi.1)
              (indexedName base pi.2 "silu") ]),
         none) := by
  induction items generalizing m with
  | nil => rfl
  | cons pi rest ih => cases pi; simp [SiLU.loop, ih]

lemma siluLoop_x_none (mix? expX? expSum? : Option MVar) (output : MVar)
    (base : String) (m : GpModel) (items : List (Nat × List Nat)) (h : items ≠ []) :
    SiLU.loop mix? none expX? expSum? output base m items
      = (m, some (.unboundLocal "x")) := by
  cases items with
  | nil => exact absurd rfl h
  | cons pi rest => cases pi; rfl

lemma siluLoop_mix_none (x : MVar) (expX? expSum? : Option MVar) (output : MVar)
    (base : String) (m : GpModel) (items : List (Nat × List Nat)) (h : items ≠ []) :
    SiLU.loop none (some x) expX? expSum? output base m items
      = (m, some (.unboundLocal "mixing")) := by
  cases items with
  | nil => exact absurd rfl h
  | cons pi rest => cases pi; rfl

lemma siluLoop_expX_none (mix x : MVar) (expSum? : Option MVar) (output : MVar)
    (base : String) (m : GpModel) (items : List (Nat × List Nat)) (h : items ≠ []) :
    SiLU.loop (some mix) (some x) none expSum? output base m items
      = (m.addConstr (.linEqNeg (x.id (items.headI).1) (mix.id (items.headI).1)),
         some (.unboundLocal "exp_x")) := by
  cases items with
  | nil => exact absurd rfl h
  | cons pi rest => cases pi; rfl

lemma siluLoop_expSum_none (mix x expX : MVar) (output : MVar)
    (base : String) (m : GpModel) (items : List (Nat × List Nat)) (h : items ≠ []) :
    SiLU.loop (some mix) (some x) (some expX) none output base m items
      = ((m.addConstr (.linEqNeg (x.id (items.headI).1) (mix.id (items.headI).1))).addConstr
          (.genExp (x.id (items.headI).1) (expX.id (items.headI).1)),
         some (.unboundLocal "exp_sum")) := by
  cases items with
  | nil => exact absurd rfl h
  | cons pi rest => cases pi; rfl

/-! ## Run characterizations of the three encoders -/

lemma identityRun_affine (layer : Layer) (m : GpModel) (aff : AffineParams)
    (h : layer.coefs? = some aff) :
    Identity.mipModel layer m
      = ⟨m.addConstr (.affineEq layer.outputArr layer.inputArr aff.coefs aff.intercept),
         layer, none⟩ := by
  simp [Identity.mipModel, h]

lemma identityRun_noaffine (layer : Layer) (m : GpModel) (h : layer.coefs? = none) :
    Identity.mipModel layer m = ⟨m, layer, some (.attributeError "coefs")⟩ := by
  simp [Identity.mipModel, h]

lemma reluRun_noaffine (layer : Layer) (m : GpModel) (h : layer.coefs? = none) :
    ReLU.mipModel layer m
      = ⟨m.addConstrList
          (reluConstrs layer.inputArr layer.outputArr layer.baseName layer.outputArr.shape),
         layer, none⟩ := by
  simp [ReLU.mipModel, h, reluLoop_some, reluConstrs]

lemma reluRun_affine_fresh (layer : Layer) (m : GpModel) (aff : AffineParams)
    (hc : layer.coefs? = some aff) (hm : layer.mixing? = none) :
    ReLU.mipModel layer m
      = (let mix : MVar := ⟨layer.outputArr.shape, m.vars.length, nameVar layer.baseName "mix"⟩
         let m1 := (m.addMVar layer.outputArr.shape Bound.neginf VType.continuous
           (nameVar layer.baseName "mix")).2
         let m2 := m1.update.addConstr (.affineEq mix layer.inputArr aff.coefs aff.intercept)
         ⟨m2.addConstrList
            (reluConstrs mix layer.outputArr layer.baseName layer.outputArr.shape),
          { layer with mixing? := some mix }, none⟩) := by
  simp [ReLU.mipModel, hc, affineStage, hm, reluLoop_some, reluConstrs]

lemma reluRun_affine_stale (layer : Layer) (m : GpModel) (aff : AffineParams) (mv : MVar)
    (hc : layer.coefs? = some aff) (hm : layer.mixing? = some mv)
    (hs : 0 < shapeSize layer.outputArr.shape) :
    ReLU.mipModel layer m
      = ⟨m.update.addConstr (.affineEq mv layer.inputArr aff.coefs aff.intercept),
         layer, some (.unboundLocal "mixing")⟩ := by
  simp [ReLU.mipModel, hc, affineStage, hm,
    reluLoop_none _ _ _ _ (enumNd_ne_nil hs)]

lemma siluRun_noaffine (layer : Layer) (m : GpModel) (hc : layer.coefs? = none)
    (hx : layer.xAttr = false) (he : layer.expXAttr = false)
    (hu : layer.expSumAttr = false) :
    SiLU.mipModel layer m
      = (let sh := layer.outputArr.shape
         let sz := shapeSize sh
         let x : MVar := ⟨sh, m.vars.length, nameVar layer.baseName "x"⟩
         let expX : MVar := ⟨sh, m.vars.length + sz, nameVar layer.baseName "exp_x"⟩
         let expSum : MVar := ⟨sh, m.vars.length + sz + sz, nameVar layer.baseName "exp_sum"⟩
         let m0 := (m.setLb layer.outputArr 0).setUb layer.outputArr 1
         let m1 := (m0.addMVar sh Bound.neginf VType.continuous (nameVar layer.baseName "x")).2
         let m2 := (m1.addMVar sh Bound.neginf VType.continuous (nameVar layer.baseName "exp_x")).2
         let m3 := (m2.addMVar sh Bound.neginf VType.continuous (nameVar layer.baseName "exp_sum")).2
         ⟨m3.addConstrList
            (siluConstrs layer.inputArr x expX expSum layer.outputArr layer.baseName sh),
          layer, none⟩) := by
  simp [SiLU.mipModel, hc, hx, he, hu, siluLoop_some, siluConstrs, GpModel.setLb,
    GpModel.setUb, add_assoc]

lemma siluRun_affine_fresh (layer : Layer) (m : GpModel) (aff : AffineParams)
    (hc : layer.coefs? = some aff) (hm : layer.mixing? = none)
    (hx : layer.xAttr = false) (he : layer.expXAttr = false)
    (hu : layer.expSumAttr = false) :
    SiLU.mipModel layer m
      = (let sh := layer.outputArr.shape
         let sz := shapeSize sh
         let mix : MVar := ⟨sh, m.vars.length, nameVar layer.baseName "mix"⟩
         let x : MVar := ⟨sh, m.vars.length + sz, nameVar layer.baseName "x"⟩
         let expX : MVar := ⟨sh, m.vars.length + sz + sz, nameVar layer.baseName "exp_x"⟩
         let expSum : MVar := ⟨sh, m.vars.length + sz + sz + sz, nameVar layer.baseName "exp_sum"⟩
         let m0 := (m.setLb layer.outputArr 0).setUb layer.outputArr 1
         let m1 := (m0.addMVar sh Bound.neginf VType.continuous (nameVar layer.baseName "mix")).2
         let m2 := m1.update.addConstr (.affineEq mix layer.inputArr aff.coefs aff.intercept)
         let m3 := (m2.addMVar sh Bound.neginf VType.continuous (nameVar layer.baseName "x")).2
         let m4 := (m3.addMVar sh Bound.neginf VType.continuous (nameVar layer.baseName "exp_x")).2
         let m5 := (m4.addMVar sh Bound.neginf VType.continuous (nameVar layer.baseName "exp_sum")).2
         ⟨m5.addConstrList
            (siluConstrs mix x expX expSum layer.outputArr layer.baseName sh),
          { layer with mixing? := some mix }, none⟩) := by
  simp [SiLU.mipModel, hc, hm, hx, he, hu, affineStage, siluLoop_some, siluConstrs,
    GpModel.setLb, GpModel.setUb, add_assoc]

/-! ## Error paths of `SiLU.mip_model` -/

lemma siluRun_err_mixing (layer : Layer) (m : GpModel) (aff : AffineParams) (mv : MVar)
    (hc : layer.coefs? = some aff) (hm : layer.mixing? = some mv)
    (hx : layer.xAttr = false) (hs : 0 < shapeSize layer.outputArr.shape) :
    (SiLU.mipModel layer m).err = some (.unboundLocal "mixing") := by
  obtain ⟨pi, rest, hit⟩ := List.exists_cons_of_ne_nil (enumNd_ne_nil hs)
  cases he : layer.expXAttr <;> cases hu : layer.expSumAttr <;>
    simp [SiLU.mipModel, hc, hm, hx, he, hu, affineStage, hit, SiLU.loop]

lemma siluRun_err_x (layer : Layer) (m : GpModel)
    (hx : layer.xAttr = true) (hs : 0 < shapeSize layer.outputArr.shape) :
    (SiLU.mipModel layer m).err = some (.unboundLocal "x") := by
  obtain ⟨pi, rest, hit⟩ := List.exists_cons_of_ne_nil (enumNd_ne_nil hs)
  cases hc : layer.coefs? with
  | none =>
      cases he : layer.expXAttr <;> cases hu : layer.expSumAttr <;>
        simp [SiLU.mipModel, hc, hx, he, hu, hit, SiLU.loop]
  | some aff =>
      cases hm : layer.mixing? with
      | none =>
          cases he : layer.expXAttr <;> cases hu : layer.expSumAttr <;>
            simp [SiLU.mipModel, hc, hm, hx, he, hu, affineStage, hit, SiLU.loop]
      | some mv =>
          cases he : layer.expXAttr <;> cases hu : layer.expSumAttr <;>
            simp [SiLU.mipModel, hc, hm, hx, he, hu, affineStage, hit, SiLU.loop]

lemma siluRun_err_expX (layer : Layer) (m : GpModel)
    (hmix : layer.coefs? = none ∨ layer.mixing? = none)
    (hx : layer.xAttr = false) (he : layer.expXAttr = true)
    (hs : 0 < shapeSize layer.outputArr.shape) :
    (SiLU.mipModel layer m).err = some (.unboundLocal "exp_x") := by
  obtain ⟨pi, rest, hit⟩ := List.exists_cons_of_ne_nil (enumNd_ne_nil hs)
  rcases hmix with hc | hm
  · cases hu : layer.expSumAttr <;>
      simp [SiLU.mipModel, hc, hx, he, hu, hit, SiLU.loop]
  · cases hc : layer.coefs? with
    | none =>
        cases hu : layer.expSumAttr <;>
          simp [SiLU.mipModel, hc, hx, he, hu, hit, SiLU.loop]
    | some aff =>
        cases hu : layer.expSumAttr <;>
          simp [SiLU.mipModel, hc, hm, hx, he, hu, affineStage, hit, SiLU.loop]

lemma siluRun_err_expSum (layer : Layer) (m : GpModel)
    (hmix : layer.coefs? = none ∨ layer.mixing? = none)
    (hx : layer.xAttr = false) (he : layer.expXAttr = false)
    (hu : layer.expSumAttr = true)
    (hs : 0 < shapeSize layer.outputArr.shape) :
    (SiLU.mipModel layer m).err = some (.unboundLocal "exp_sum") := by
  obtain ⟨pi, rest, hit⟩ := List.exists_cons_of_ne_nil (enumNd_ne_nil hs)
  rcases hmix with hc | hm
  · simp [SiLU.mipModel, hc, hx, he, hu, hit, SiLU.loop]
  · cases hc : layer.coefs? with
    | none => simp [SiLU.mipModel, hc, hx, he, hu, hit, SiLU.loop]
    | some aff => simp [SiLU.mipModel, hc, hm, hx, he, hu, affineStage, hit, SiLU.loop]

/-! ## Observing variable data -/

/-- The default variable data of a freshly created continuous variable. -/
def defaultVarInfo : VarInfo := ⟨Bound.neginf, Bound.posinf, VType.continuous⟩

/-- The data of variable `i` in the model. -/
def GpModel.varAt (m : GpModel) (i : Nat) : VarInfo := m.vars.getD i defaultVarInfo

lemma overwriteAt_getD (f : VarInfo → VarInfo) (ids : List Nat) (d : VarInfo) :
    ∀ (l : List VarInfo) (s i : Nat),
      (overwriteAt f ids s l).getD i d
        = if i < l.length then
            (if s + i ∈ ids then f (l.getD i d) else l.getD i d)
          else d
  | [], s, i => by simp [overwriteAt]
  | vi :: rest, s, 0 => by simp [overwriteAt]
  | vi :: rest, s, (i + 1) => by
      have ih := overwriteAt_getD f ids d rest (s + 1) i
      simp only [overwriteAt, List.getD_cons_succ, List.length_cons, ih,
        Nat.add_lt_add_iff_right]
      have : s + 1 + i = s + (i + 1) := by omega
      rw [this]

lemma overwriteAt_overwriteAt (f g : VarInfo → VarInfo) (ids : List Nat) :
    ∀ (l : List VarInfo) (s : Nat),
      overwriteAt f ids s (overwriteAt g ids s l)
        = overwriteAt (fun vi => f (g vi)) ids s l
  | [], s => by simp [overwriteAt]
  | vi :: rest, s => by
      by_cases h : s ∈ ids <;>
        simp [overwriteAt, h, overwriteAt_overwriteAt f g ids rest (s + 1)]

lemma overwriteAt_congr {f g : VarInfo → VarInfo} (h : ∀ vi, f vi = g vi)
    (ids : List Nat) :
    ∀ (l : List VarInfo) (s : Nat), overwriteAt f ids s l = overwriteAt g ids s l
  | [], _ => rfl
  | vi :: rest, s => by
      simp [overwriteAt, h vi, overwriteAt_congr h ids rest (s + 1)]

lemma varAt_setLb (m : GpModel) (a : MVar) (q : ℚ) (i : Nat) (h : i < m.vars.length) :
    (m.setLb a q).varAt i
      = if i ∈ a.ids then { m.varAt i with lb := Bound.val q } else m.varAt i := by
  simp only [GpModel.setLb, GpModel.varAt]
  rw [overwriteAt_getD]
  simp [h]

lemma varAt_setUb (m : GpModel) (a : MVar) (q : ℚ) (i : Nat) (h : i < m.vars.length) :
    (m.setUb a q).varAt i
      = if i ∈ a.ids then { m.varAt i with ub := Bound.val q } else m.varAt i := by
  simp only [GpModel.setUb, GpModel.varAt]
  rw [overwriteAt_getD]
  simp [h]

lemma getD_append_left {α : Type _} (l l' : List α) (d : α) (i : Nat)
    (h : i < l.length) : (l ++ l').getD i d = l.getD i d := by
  rw [List.getD_eq_getElem _ _ (by simp; omega), List.getD_eq_getElem _ _ h]
  exact List.getElem_append_left h

/-- Re-setting the `[0, 1]` bounds of an array is a no-op: used to show that
`SiLU.mip_model`'s first action really is the bound overwrite. -/
lemma setBounds01_idem (m : GpModel) (a : MVar) :
    (((m.setLb a 0).setUb a 1).setLb a 0).setUb a 1 = (m.setLb a 0).setUb a 1 := by
  cases m with
  | mk vars committed refsOk constrs =>
      simp only [GpModel.setLb, GpModel.setUb, overwriteAt_overwriteAt]

/-! ## The loops only add constraints: variable pool preservation -/

lemma reluLoop_fst_vars (mix? : Option MVar) (output : MVar) (base : String) :
    ∀ (m : GpModel) (items : List (Nat × List Nat)),
      ((ReLU.loop mix? output base m items).1).vars = m.vars
  | _, [] => rfl
  | m, (p, idx) :: rest => by
      cases mix? with
      | none => rfl
      | some mixing =>
          simp only [ReLU.loop]
          rw [reluLoop_fst_vars (some mixing) output base _ rest]
          rfl

lemma siluLoop_fst_vars (mix? x? expX? expSum? : Option MVar) (output : MVar)
    (base : String) :
    ∀ (m : GpModel) (items : List (Nat × List Nat)),
      ((SiLU.loop mix? x? expX? expSum? output base m items).1).vars = m.vars
  | _, [] => rfl
  | m, (p, idx) :: rest => by
      cases x? with
      | none => rfl
      | some x =>
        cases mix? with
        | none => rfl
        | some mixing =>
          cases expX? with
          | none => rfl
          | some expX =>
            cases expSum? with
            | none => rfl
            | some expSum =>
                simp only [SiLU.loop]
                rw [siluLoop_fst_vars (some mixing) (some x) (some expX) (some expSum)
                  output base _ rest]
                rfl

lemma reluLoop_none_fst (output : MVar) (base : String) (m : GpModel)
    (items : List (Nat × List Nat)) :
    (ReLU.loop none output base m items).1 = m := by
  cases items with
  | nil => rfl
  | cons pi rest => cases pi; rfl

/-- In the stale-mixing path the model receives only the re-added affine
constraint (for any output size). -/
lemma reluRun_affine_stale_model (layer : Layer) (m : GpModel) (aff : AffineParams)
    (mv : MVar) (hc : layer.coefs? = some aff) (hm : layer.mixing? = some mv) :
    (ReLU.mipModel layer m).model
      = m.update.addConstr (.affineEq mv layer.inputArr aff.coefs aff.intercept) := by
  simp only [ReLU.mipModel, hc, affineStage, hm]
  cases hr : ReLU.loop none layer.outputArr layer.baseName
      (m.update.addConstr (.affineEq mv layer.inputArr aff.coefs aff.intercept))
      (enumNd layer.outputArr.shape) with
  | mk m' err' =>
      have h := reluLoop_none_fst layer.outputArr layer.baseName
        (m.update.addConstr (.affineEq mv layer.inputArr aff.coefs aff.intercept))
        (enumNd layer.outputArr.shape)
      rw [hr] at h
      simp only [hr]
      exact h

/-! ## Membership in the elementwise iteration space -/

lemma mem_enumNd_fst_lt {s : List Nat} {pi : Nat × List Nat} (h : pi ∈ enumNd s) :
    pi.1 < shapeSize s := by
  simp only [enumNd] at h
  rw [List.mem_iff_getElem] at h
  obtain ⟨j, hj, hEq⟩ := h
  rw [List.getElem_enum] at hEq
  have hj' : j < shapeSize s := by simpa using hj
  rw [← hEq]
  exact hj'

lemma mem_enumNd (s : List Nat) (p : Nat) (hp : p < shapeSize s) :
    ∃ idx, (p, idx) ∈ enumNd s := by
  have hp' : p < (ndindex s).length := by simpa using hp
  have hp'' : p < (enumNd s).length := by simpa using hp
  refine ⟨(ndindex s).get ⟨p, hp'⟩, ?_⟩
  have hEq : (enumNd s).get ⟨p, hp''⟩ = (p, (ndindex s).get ⟨p, hp'⟩) := by
    simp only [enumNd, List.get_eq_getElem]
    rw [List.getElem_enum]
  rw [← hEq]
  exact List.get_mem _ _ _

lemma mem_reluConstrs (mix output : MVar) (base : String) (s : List Nat) (p : Nat)
    (hp : p < shapeSize s) :
    ∃ idx, Constr.genMax (output.id p) [mix.id p] 0 (indexedName base idx "relu")
      ∈ reluConstrs mix output base s := by
  obtain ⟨idx, hmem⟩ := mem_enumNd s p hp
  exact ⟨idx, List.mem_map.mpr ⟨(p, idx), hmem, rfl⟩⟩

lemma mem_siluConstrs (mix x expX expSum output : MVar) (base : String) (s : List Nat)
    (p : Nat) (hp : p < shapeSize s) :
    Constr.linEqNeg (x.id p) (mix.id p)
        ∈ siluConstrs mix x expX expSum output base s
    ∧ Constr.genExp (x.id p) (expX.id p)
        ∈ siluConstrs mix x expX expSum output base s
    ∧ Constr.linEqOnePlus (expSum.id p) (expX.id p)
        ∈ siluConstrs mix x expX expSum output base s
    ∧ ∃ idx, Constr.bilinEqOne (output.id p) (expSum.id p)
          (indexedName base idx "silu")
        ∈ siluConstrs mix x expX expSum output base s := by
  obtain ⟨idx, hmem⟩ := mem_enumNd s p hp
  refine ⟨?_, ?_, ?_, idx, ?_⟩ <;>
    exact List.mem_flatMap.mpr ⟨(p, idx), hmem, by simp⟩

/-! ## Joint satisfiability of the SiLU elementwise constraints -/

/-- The four elementwise constraint families emitted by `SiLU.mip_model`
(negation, exponentiation, shift by one, bilinear reciprocal) over a mixing
array and three fresh auxiliary bands starting at `A` are jointly satisfiable
by an extension of `v` beyond `A` exactly when every output element equals
the logistic sigmoid of the corresponding mixing element. -/
lemma siluConstrs_sat_iff (mixArr out : MVar) (base : String) (shape : List Nat)
    (A : Nat) (nx ne ns : String)
    (hmix : mixArr.start + shapeSize shape ≤ A)
    (hout : out.start + shapeSize shape ≤ A)
    (v : Nat → ℝ) :
    (∃ w : Nat → ℝ, (∀ i, i < A → w i = v i)
        ∧ satList w (siluConstrs mixArr ⟨shape, A, nx⟩
            ⟨shape, A + shapeSize shape, ne⟩
            ⟨shape, A + shapeSize shape + shapeSize shape, ns⟩ out base shape))
      ↔ ∀ p < shapeSize shape,
          v (out.id p) = 1 / (1 + Real.exp (- v (mixArr.id p))) := by
  constructor
  · rintro ⟨w, hagree, hsat⟩ p hp
    obtain ⟨h1, h2, h3, idx, h4⟩ := mem_siluConstrs mixArr ⟨shape, A, nx⟩
      ⟨shape, A + shapeSize shape, ne⟩
      ⟨shape, A + shapeSize shape + shapeSize shape, ns⟩ out base shape p hp
    have e1 := hsat _ h1
    have e2 := hsat _ h2
    have e3 := hsat _ h3
    have e4 := hsat _ h4
    simp only [Constr.sat] at e1 e2 e3 e4
    have hvout : w (out.id p) = v (out.id p) :=
      hagree _ (by simp only [MVar.id]; omega)
    have hvmix : w (mixArr.id p) = v (mixArr.id p) :=
      hagree _ (by simp only [MVar.id]; omega)
    have hpos : (0 : ℝ) < 1 + Real.exp (- v (mixArr.id p)) := by positivity
    rw [e3, e2, e1, hvmix, hvout] at e4
    exact eq_div_of_mul_eq hpos.ne' e4
  · intro hsig
    refine ⟨fun i =>
      if i < A then v i
      else if i < A + shapeSize shape then -(v (mixArr.id (i - A)))
      else if i < A + shapeSize shape + shapeSize shape then
        Real.exp (-(v (mixArr.id (i - (A + shapeSize shape)))))
      else if i < A + shapeSize shape + shapeSize shape + shapeSize shape then
        1 + Real.exp (-(v (mixArr.id (i - (A + shapeSize shape + shapeSize shape)))))
      else v i, ?_, ?_⟩
    · intro i hi
      simp [hi]
    · intro c hcm
      rw [siluConstrs, List.mem_flatMap] at hcm
      obtain ⟨pi, hmem, hc4⟩ := hcm
      have hp := mem_enumNd_fst_lt hmem
      simp only [List.mem_cons, List.not_mem_nil, or_false] at hc4
      have hxb1 : ¬ (A + pi.1 < A) := by omega
      have hxb2 : A + pi.1 < A + shapeSize shape := by omega
      have heb1 : ¬ (A + shapeSize shape + pi.1 < A) := by omega
      have heb2 : ¬ (A + shapeSize shape + pi.1 < A + shapeSize shape) := by omega
      have heb3 : A + shapeSize shape + pi.1
          < A + shapeSize shape + shapeSize shape := by omega
      have hsb1 : ¬ (A + shapeSize shape + shapeSize shape + pi.1 < A) := by omega
      have hsb2 : ¬ (A + shapeSize shape + shapeSize shape + pi.1
          < A + shapeSize shape) := by omega
      have hsb3 : ¬ (A + shapeSize shape + shapeSize shape + pi.1
          < A + shapeSize shape + shapeSize shape) := by omega
      have hsb4 : A + shapeSize shape + shapeSize shape + pi.1
          < A + shapeSize shape + shapeSize shape + shapeSize shape := by omega
      have hob : out.start + pi.1 < A := by omega
      have hmb : mixArr.start + pi.1 < A := by omega
      rcases hc4 with rfl | rfl | rfl | rfl
      · simp only [Constr.sat, MVar.id]
        rw [if_neg hxb1, if_pos hxb2, if_pos hmb]
        have : A + pi.1 - A = pi.1 := by omega
        rw [this]
      · simp only [Constr.sat, MVar.id]
        rw [if_neg heb1, if_neg heb2, if_pos heb3, if_neg hxb1, if_pos hxb2]
        have h1 : A + shapeSize shape + pi.1 - (A + shapeSize shape) = pi.1 := by
          omega
        have h2 : A + pi.1 - A = pi.1 := by omega
        rw [h1, h2]
      · simp only [Constr.sat, MVar.id]
        rw [if_neg hsb1, if_neg hsb2, if_neg hsb3, if_pos hsb4, if_neg heb1,
          if_neg heb2, if_pos heb3]
        have h1 : A + shapeSize shape + shapeSize shape + pi.1
            - (A + shapeSize shape + shapeSize shape) = pi.1 := by omega
        have h2 : A + shapeSize shape + pi.1 - (A + shapeSize shape) = pi.1 := by
          omega
        rw [h1, h2]
      · simp only [Constr.sat, MVar.id]
        rw [if_pos hob, if_neg hsb1, if_neg hsb2, if_neg hsb3, if_pos hsb4]
        have h1 : A + shapeSize shape + shapeSize shape + pi.1
            - (A + shapeSize shape + shapeSize shape) = pi.1 := by omega
        rw [h1]
        have hpos : (0 : ℝ) < 1 + Real.exp (-(v (mixArr.id pi.1))) := by positivity
        have := hsig pi.1 hp
        simp only [MVar.id] at this
        rw [this]
        exact one_div_mul_cancel hpos.ne'

/-! ## Reference checks against the committed frontier -/

lemma ids_all_lt (a : MVar) (N : Nat) (h : a.start + a.size ≤ N) :
    a.ids.all (· < N) = true := by
  rw [List.all_eq_true]
  intro i hi
  rw [MVar.ids, List.mem_range'_1] at hi
  simp only [decide_eq_true_eq]
  omega

lemma affineEq_refs_ok (lhs inp : MVar) (C : List (List ℚ)) (b : List ℚ) (N : Nat)
    (h1 : lhs.start + lhs.size ≤ N) (h2 : inp.start + inp.size ≤ N) :
    (Constr.affineEq lhs inp C b).refs.all (· < N) = true := by
  simp only [Constr.refs, List.all_append]
  rw [ids_all_lt lhs N h1, ids_all_lt inp N h2]
  rfl

lemma reluConstrs_refs_ok (mix out : MVar) (base : String) (s : List Nat) (N : Nat)
    (hmix : mix.start + shapeSize s ≤ N) (hout : out.start + shapeSize s ≤ N) :
    (reluConstrs mix out base s).all (fun c => c.refs.all (· < N)) = true := by
  rw [List.all_eq_true]
  intro c hcm
  rw [reluConstrs, List.mem_map] at hcm
  obtain ⟨pi, hmem, rfl⟩ := hcm
  have hp := mem_enumNd_fst_lt hmem
  simp only [Constr.refs, List.all_cons, List.all_nil, MVar.id, Bool.and_true,
    decide_eq_true_eq, Bool.and_eq_true]
  omega

/-! ## Concrete fixtures for witnesses and counterexamples -/

/-- A committed model holding two input and two output variables. -/
def testModel : GpModel := ⟨List.replicate 4 defaultVarInfo, 4, true, []⟩

/-- The input array of the test fixtures (variables 0, 1). -/
def testInput : MVar := ⟨[2], 0, "in"⟩

/-- The output array of the test fixtures (variables 2, 3). -/
def testOutput : MVar := ⟨[2], 2, "out"⟩

/-- Affine parameters of the test fixtures. -/
def testAff : AffineParams := ⟨[[1, 0], [0, 1]], [0, 0]⟩

/-- A fresh layer with affine parameters. -/
def testLayerAffine : Layer :=
  ⟨testInput, testOutput, some testAff, none, false, false, false, "L"⟩

/-- A fresh layer without affine parameters. -/
def testLayerPlain : Layer :=
  ⟨testInput, testOutput, none, none, false, false, false, "L"⟩

/-! ## Claims -/

/-- Claim C9: whenever a guarded attribute already exists before the call —
`mixing` for the affine branch of ReLU or SiLU, or an attribute named `x`,
`exp_x` or `exp_sum` for SiLU — `mip_model` skips creating that array but
never binds the corresponding local variable, so the elementwise loop
references an unbound local and the call fails with an `UnboundLocalError`
instead of reusing the existing array. -/
theorem claim_C9 (layer : Layer) (m : GpModel)
    (hs : 0 < shapeSize layer.outputArr.shape) :
    (∀ aff mv, layer.coefs? = some aff → layer.mixing? = some mv →
      (ReLU.mipModel layer m).err = some (.unboundLocal "mixing")
      ∧ (ReLU.mipModel layer m).model.vars = m.vars
      ∧ (ReLU.mipModel layer m).layer = layer)
    ∧ (∀ aff mv, layer.coefs? = some aff → layer.mixing? = some mv →
        layer.xAttr = false →
        (SiLU.mipModel layer m).err = some (.unboundLocal "mixing"))
    ∧ (layer.xAttr = true →
        (SiLU.mipModel layer m).err = some (.unboundLocal "x"))
    ∧ ((layer.coefs? = none ∨ layer.mixing? = none) →
        layer.xAttr = false → layer.expXAttr = true →
        (SiLU.mipModel layer m).err = some (.unboundLocal "exp_x"))
    ∧ ((layer.coefs? = none ∨ layer.mixing? = none) →
        layer.xAttr = false → layer.expXAttr = false → layer.expSumAttr = true →
        (SiLU.mipModel layer m).err = some (.unboundLocal "exp_sum")) := by
  refine ⟨?_, ?_, ?_, ?_, ?_⟩
  · intro aff mv hc hm
    rw [reluRun_affine_stale layer m aff mv hc hm hs]
    exact ⟨rfl, rfl, rfl⟩
  · intro aff mv hc hm hx
    exact siluRun_err_mixing layer m aff mv hc hm hx hs
  · intro hx
    exact siluRun_err_x layer m hx hs
  · intro hmix hx he
    exact siluRun_err_expX layer m hmix hx he hs
  · intro hmix hx he hu
    exact siluRun_err_expSum layer m hmix hx he hu hs

/-- Witness for C9: on a layer whose `mixing` attribute already exists, the
ReLU call raises. -/
theorem claim_C9_witness :
    (ReLU.mipModel ⟨testInput, testOutput, some testAff, some ⟨[2], 4, "mix"⟩,
        false, false, false, "L"⟩ testModel).err = some (.unboundLocal "mixing") :=
  ((claim_C9 ⟨testInput, testOutput, some testAff, some ⟨[2], 4, "mix"⟩,
      false, false, false, "L"⟩ testModel (by decide)).1 testAff ⟨[2], 4, "mix"⟩
    rfl rfl).1

/-- Claim C6: on a layer context without weight/bias parameters, ReLU's and
SiLU's `mip_model` use the raw input array directly in the mixing role (the
max resp. negation operand is `input[idx]`) and create zero affine-stage
variables and zero affine-stage constraints (ReLU creates no variables at
all; SiLU creates only its three auxiliary arrays, and neither touches the
layer's `mixing` attribute). -/
theorem claim_C6 (layer : Layer) (m : GpModel) (hc : layer.coefs? = none)
    (hx : layer.xAttr = false) (he : layer.expXAttr = false)
    (hu : layer.expSumAttr = false) :
    ((ReLU.mipModel layer m).err = none
      ∧ (ReLU.mipModel layer m).model.vars = m.vars
      ∧ (ReLU.mipModel layer m).layer = layer
      ∧ (ReLU.mipModel layer m).model.constrs
          = m.constrs ++ reluConstrs layer.inputArr layer.outputArr layer.baseName
              layer.outputArr.shape)
    ∧ ((SiLU.mipModel layer m).err = none
      ∧ (SiLU.mipModel layer m).model.vars.length
          = m.vars.length + 3 * shapeSize layer.outputArr.shape
      ∧ (SiLU.mipModel layer m).layer = layer
      ∧ (SiLU.mipModel layer m).model.constrs
          = m.constrs ++ siluConstrs layer.inputArr
              ⟨layer.outputArr.shape, m.vars.length, nameVar layer.baseName "x"⟩
              ⟨layer.outputArr.shape, m.vars.length + shapeSize layer.outputArr.shape,
                nameVar layer.baseName "exp_x"⟩
              ⟨layer.outputArr.shape,
                m.vars.length + shapeSize layer.outputArr.shape
                  + shapeSize layer.outputArr.shape,
                nameVar layer.baseName "exp_sum"⟩
              layer.outputArr layer.baseName layer.outputArr.shape) := by
  constructor
  · rw [reluRun_noaffine layer m hc]
    refine ⟨rfl, by simp, rfl, by simp⟩
  · rw [siluRun_noaffine layer m hc hx he hu]
    refine ⟨rfl, ?_, rfl, ?_⟩
    · simp [List.length_append]
      ring
    · simp

/-- Witness for C6 at the concrete no-affine fixture. -/
theorem claim_C6_witness :
    (ReLU.mipModel testLayerPlain testModel).err = none
    ∧ (SiLU.mipModel testLayerPlain testModel).model.vars.length
        = testModel.vars.length + 3 * shapeSize testLayerPlain.outputArr.shape :=
  ⟨(claim_C6 testLayerPlain testModel rfl rfl rfl rfl).1.1,
   (claim_C6 testLayerPlain testModel rfl rfl rfl rfl).2.2.1⟩

/-- Counterexample for C4: on a well-formed layer without affine parameters,
`Identity.mip_model` does not add `output == input`; it raises an
`AttributeError` and adds no constraint at all, so the claim's "output ==
input when the layer has no affine parameters; in both cases it always
succeeds" is false. -/
theorem claim_C4_counterexample :
    (Identity.mipModel testLayerPlain testModel).err
        = some (.attributeError "coefs")
    ∧ (Identity.mipModel testLayerPlain testModel).model.constrs = [] := by
  exact ⟨rfl, rfl⟩

/-- Claim C4 (amended): when the layer has affine parameters, Identity's
`mip_model` adds exactly one linear-equality constraint set making
`output == input · weights + bias` elementwise, creating no variables and
changing no bounds; when the layer has no affine parameters it raises an
`AttributeError` and changes nothing (there is no `output == input`
fallback). -/
theorem claim_C4 (layer : Layer) (m : GpModel) :
    (∀ aff, layer.coefs? = some aff →
      (Identity.mipModel layer m).err = none
      ∧ (Identity.mipModel layer m).model.vars = m.vars
      ∧ (Identity.mipModel layer m).layer = layer
      ∧ (Identity.mipModel layer m).model.constrs
          = m.constrs ++ [.affineEq layer.outputArr layer.inputArr aff.coefs aff.intercept]
      ∧ ∀ v : Nat → ℝ,
          (Constr.affineEq layer.outputArr layer.inputArr aff.coefs aff.intercept).sat v
            ↔ ∀ j < layer.outputArr.size,
                v (layer.outputArr.id j)
                  = (∑ i ∈ Finset.range layer.inputArr.size,
                      v (layer.inputArr.id i) * ((aff.coefs.getD i []).getD j 0 : ℚ))
                    + ((aff.intercept.getD j 0 : ℚ) : ℝ))
    ∧ (layer.coefs? = none →
        Identity.mipModel layer m = ⟨m, layer, some (.attributeError "coefs")⟩) := by
  constructor
  · intro aff hc
    rw [identityRun_affine layer m aff hc]
    exact ⟨rfl, rfl, rfl, rfl, fun v => Iff.rfl⟩
  · intro hc
    exact identityRun_noaffine layer m hc

/-- Witness for the amended C4 at the concrete fixtures. -/
theorem claim_C4_witness :
    (Identity.mipModel testLayerAffine testModel).err = none
    ∧ Identity.mipModel testLayerPlain testModel
        = ⟨testModel, testLayerPlain, some (.attributeError "coefs")⟩ :=
  ⟨((claim_C4 testLayerAffine testModel).1 testAff rfl).1,
   (claim_C4 testLayerPlain testModel).2 rfl⟩

/-- Claim C2: on a layer whose `mixing` attribute does not pre-exist (or that
has no affine stage), ReLU's `mip_model` succeeds and adds, for every
element index, exactly one generic elementwise max constraint — the emitted
constraints beyond the affine stage are precisely one `genMax` per enumerated
index, named `indexedName base idx "relu"` — whose satisfaction is equivalent
to `output[idx] = max(mixing[idx], 0)`, where the mixing array is the lazily
created affine pre-activation when the layer has weights and the raw input
otherwise. -/
theorem claim_C2 (layer : Layer) (m : GpModel)
    (hfresh : layer.coefs? = none ∨ layer.mixing? = none) :
    ∃ mix : MVar,
      (layer.coefs? = none → mix = layer.inputArr)
      ∧ (∀ aff, layer.coefs? = some aff →
          (ReLU.mipModel layer m).layer.mixing? = some mix
          ∧ Constr.affineEq mix layer.inputArr aff.coefs aff.intercept
              ∈ (ReLU.mipModel layer m).model.constrs)
      ∧ (ReLU.mipModel layer m).err = none
      ∧ (∃ pre : List Constr,
          (ReLU.mipModel layer m).model.constrs
            = m.constrs ++ pre
                ++ reluConstrs mix layer.outputArr layer.baseName layer.outputArr.shape
          ∧ ∀ c ∈ pre, ∀ r ops cst nm, c ≠ Constr.genMax r ops cst nm)
      ∧ ∀ (p : Nat) (idx : List Nat) (v : Nat → ℝ),
          (Constr.genMax (layer.outputArr.id p) [mix.id p] 0
              (indexedName layer.baseName idx "relu")).sat v
            ↔ v (layer.outputArr.id p) = max (v (mix.id p)) 0 := by
  have hsat : ∀ (mix : MVar) (p : Nat) (idx : List Nat) (v : Nat → ℝ),
      (Constr.genMax (layer.outputArr.id p) [mix.id p] 0
          (indexedName layer.baseName idx "relu")).sat v
        ↔ v (layer.outputArr.id p) = max (v (mix.id p)) 0 := by
    intro mix p idx v
    simp [Constr.sat]
  rcases hfresh with hc | hm
  · refine ⟨layer.inputArr, fun _ => rfl, ?_, ?_, ⟨[], ?_, ?_⟩, hsat layer.inputArr⟩
    · intro aff haff
      rw [hc] at haff
      exact absurd haff (by simp)
    · rw [reluRun_noaffine layer m hc]
    · rw [reluRun_noaffine layer m hc]
      simp
    · intro c hcm
      exact absurd hcm (List.not_mem_nil c)
  · cases hc : layer.coefs? with
    | none =>
        refine ⟨layer.inputArr, fun _ => rfl, ?_, ?_, ⟨[], ?_, ?_⟩, hsat layer.inputArr⟩
        · intro aff haff
          exact absurd haff (by simp)
        · rw [reluRun_noaffine layer m hc]
        · rw [reluRun_noaffine layer m hc]
          simp
        · intro c hcm
          exact absurd hcm (List.not_mem_nil c)
    | some aff0 =>
        refine ⟨⟨layer.outputArr.shape, m.vars.length, nameVar layer.baseName "mix"⟩,
          ?_, ?_, ?_,
          ⟨[Constr.affineEq ⟨layer.outputArr.shape, m.vars.length,
              nameVar layer.baseName "mix"⟩ layer.inputArr aff0.coefs aff0.intercept],
            ?_, ?_⟩, hsat _⟩
        · intro hcn
          exact absurd hcn (by simp)
        · intro aff haff
          obtain rfl : aff0 = aff := by
            simpa using haff
          rw [reluRun_affine_fresh layer m aff0 hc hm]
          exact ⟨rfl, by simp⟩
        · rw [reluRun_affine_fresh layer m aff0 hc hm]
        · rw [reluRun_affine_fresh layer m aff0 hc hm]
          simp
        · intro c hcm
          rw [List.mem_singleton] at hcm
          subst hcm
          intro r ops cst nm
          simp

/-- Witness for C2 at the concrete affine fixture. -/
theorem claim_C2_witness : (ReLU.mipModel testLayerAffine testModel).err = none := by
  obtain ⟨mix, -, -, herr, -⟩ := claim_C2 testLayerAffine testModel (Or.inr rfl)
  exact herr

/-- Claim C7: SiLU's `mip_model` sets the output array's bounds to the closed
interval `[0, 1]` as its first action, before emitting any constraint
(running it from the bound-overwritten model gives the identical result) and
overwriting whatever bounds the output had before; ReLU's and Identity's
`mip_model` leave the data of every pre-existing variable unchanged. -/
theorem claim_C7 (layer : Layer) (m : GpModel)
    (hwf : layer.outputArr.start + layer.outputArr.size ≤ m.vars.length)
    (hx : layer.xAttr = false) (he : layer.expXAttr = false)
    (hu : layer.expSumAttr = false)
    (hfresh : layer.coefs? = none ∨ layer.mixing? = none) :
    (∀ i ∈ layer.outputArr.ids,
        ((SiLU.mipModel layer m).model.varAt i).lb = Bound.val 0
        ∧ ((SiLU.mipModel layer m).model.varAt i).ub = Bound.val 1)
    ∧ SiLU.mipModel layer m
        = SiLU.mipModel layer ((m.setLb layer.outputArr 0).setUb layer.outputArr 1)
    ∧ (∀ i, i < m.vars.length → (ReLU.mipModel layer m).model.varAt i = m.varAt i)
    ∧ (∀ i, i < m.vars.length →
        (Identity.mipModel layer m).model.varAt i = m.varAt i) := by
  refine ⟨?_, ?_, ?_, ?_⟩
  · intro i hmem
    have hi : i < m.vars.length := by
      rw [MVar.ids, List.mem_range'_1] at hmem
      omega
    have hm0 : ((m.setLb layer.outputArr 0).setUb layer.outputArr 1).varAt i
        = { m.varAt i with lb := Bound.val 0, ub := Bound.val 1 } := by
      rw [varAt_setUb _ _ _ _ (by simpa using hi), varAt_setLb _ _ _ _ hi]
      simp [hmem]
    have key : (SiLU.mipModel layer m).model.varAt i
        = ((m.setLb layer.outputArr 0).setUb layer.outputArr 1).varAt i := by
      have hnoaff : layer.coefs? = none →
          (SiLU.mipModel layer m).model.varAt i
            = ((m.setLb layer.outputArr 0).setUb layer.outputArr 1).varAt i := by
        intro hc
        rw [siluRun_noaffine layer m hc hx he hu]
        simp only [GpModel.varAt, addConstrList_vars, addMVar_vars]
        rw [getD_append_left _ _ _ _ (by simp; omega),
          getD_append_left _ _ _ _ (by simp; omega),
          getD_append_left _ _ _ _ (by simp; omega)]
      rcases hfresh with hc | hmix
      · exact hnoaff hc
      · cases hc : layer.coefs? with
        | none => exact hnoaff hc
        | some aff =>
            rw [siluRun_affine_fresh layer m aff hc hmix hx he hu]
            simp only [GpModel.varAt, addConstrList_vars, addMVar_vars, addConstr_vars,
              update_vars]
            rw [getD_append_left _ _ _ _ (by simp; omega),
              getD_append_left _ _ _ _ (by simp; omega),
              getD_append_left _ _ _ _ (by simp; omega),
              getD_append_left _ _ _ _ (by simp; omega)]
    rw [key, hm0]
    exact ⟨rfl, rfl⟩
  · simp only [SiLU.mipModel]
    rw [setBounds01_idem]
  · intro i hi
    cases hc : layer.coefs? with
    | none =>
        rw [reluRun_noaffine layer m hc]
        simp [GpModel.varAt]
    | some aff =>
        cases hmix : layer.mixing? with
        | none =>
            rw [reluRun_affine_fresh layer m aff hc hmix]
            simp only [GpModel.varAt, addConstrList_vars, addConstr_vars, update_vars,
              addMVar_vars]
            rw [getD_append_left _ _ _ _ hi]
        | some mv =>
            have hv := reluLoop_fst_vars none layer.outputArr layer.baseName
              (((m.update).addConstr
                (.affineEq mv layer.inputArr aff.coefs aff.intercept)))
              (enumNd layer.outputArr.shape)
            cases hr : ReLU.loop none layer.outputArr layer.baseName
                (((m.update).addConstr
                  (.affineEq mv layer.inputArr aff.coefs aff.intercept)))
                (enumNd layer.outputArr.shape) with
            | mk m' err' =>
                rw [hr] at hv
                have hv' : m'.vars = m.vars := by simpa using hv
                simp only [ReLU.mipModel, hc, affineStage, hmix, hr]
                simp only [GpModel.varAt]
                rw [hv']
  · intro i hi
    cases hc : layer.coefs? with
    | none =>
        rw [identityRun_noaffine layer m hc]
    | some aff =>
        rw [identityRun_affine layer m aff hc]
        simp [GpModel.varAt]

/-- Witness for C7: in the concrete fixture, output variable 2 ends with
bounds `[0, 1]`. -/
theorem claim_C7_witness :
    ((SiLU.mipModel testLayerPlain testModel).model.varAt 2).lb = Bound.val 0
    ∧ ((SiLU.mipModel testLayerPlain testModel).model.varAt 2).ub = Bound.val 1 :=
  (claim_C7 testLayerPlain testModel (by decide) rfl rfl rfl (Or.inl rfl)).1 2
    (by decide)

/-- Claim C8: every variable array created by any encoder for a layer — the
mixing array and SiLU's three auxiliaries — has exactly the output array's
shape, is continuous, and is created unbounded below (every freshly created
variable carries `defaultVarInfo = ⟨-∞, +∞, continuous⟩`); Identity and
no-affine ReLU create nothing. -/
theorem claim_C8 (layer : Layer) (m : GpModel)
    (hx : layer.xAttr = false) (he : layer.expXAttr = false)
    (hu : layer.expSumAttr = false) :
    ((Identity.mipModel layer m).model.vars = m.vars)
    ∧ (layer.coefs? = none → (ReLU.mipModel layer m).model.vars = m.vars)
    ∧ (∀ aff, layer.coefs? = some aff → layer.mixing? = none →
        (ReLU.mipModel layer m).layer.mixing?
            = some ⟨layer.outputArr.shape, m.vars.length, nameVar layer.baseName "mix"⟩
        ∧ (ReLU.mipModel layer m).model.vars
            = m.vars ++ List.replicate (shapeSize layer.outputArr.shape) defaultVarInfo)
    ∧ (layer.coefs? = none →
        ∃ x expX expSum : MVar,
          x.shape = layer.outputArr.shape
          ∧ expX.shape = layer.outputArr.shape
          ∧ expSum.shape = layer.outputArr.shape
          ∧ (SiLU.mipModel layer m).model.vars
              = ((m.setLb layer.outputArr 0).setUb layer.outputArr 1).vars
                  ++ List.replicate (3 * shapeSize layer.outputArr.shape) defaultVarInfo
          ∧ (SiLU.mipModel layer m).model.constrs
              = m.constrs ++ siluConstrs layer.inputArr x expX expSum layer.outputArr
                  layer.baseName layer.outputArr.shape)
    ∧ (∀ aff, layer.coefs? = some aff → layer.mixing? = none →
        ∃ mix x expX expSum : MVar,
          mix.shape = layer.outputArr.shape
          ∧ x.shape = layer.outputArr.shape
          ∧ expX.shape = layer.outputArr.shape
          ∧ expSum.shape = layer.outputArr.shape
          ∧ (SiLU.mipModel layer m).layer.mixing? = some mix
          ∧ (SiLU.mipModel layer m).model.vars
              = ((m.setLb layer.outputArr 0).setUb layer.outputArr 1).vars
                  ++ List.replicate (4 * shapeSize layer.outputArr.shape)
                      defaultVarInfo) := by
  have hrep3 : ∀ (l : List VarInfo) (sz : Nat),
      ((l ++ List.replicate sz defaultVarInfo) ++ List.replicate sz defaultVarInfo)
          ++ List.replicate sz defaultVarInfo
        = l ++ List.replicate (3 * sz) defaultVarInfo := by
    intro l sz
    rw [List.append_assoc, List.append_assoc, ← List.replicate_add,
      ← List.replicate_add]
    have h3 : sz + (sz + sz) = 3 * sz := by ring
    rw [h3]
  have hrep4 : ∀ (l : List VarInfo) (sz : Nat),
      (((l ++ List.replicate sz defaultVarInfo) ++ List.replicate sz defaultVarInfo)
          ++ List.replicate sz defaultVarInfo) ++ List.replicate sz defaultVarInfo
        = l ++ List.replicate (4 * sz) defaultVarInfo := by
    intro l sz
    rw [List.append_assoc, List.append_assoc, List.append_assoc,
      ← List.replicate_add, ← List.replicate_add, ← List.replicate_add]
    have h4 : sz + (sz + (sz + sz)) = 4 * sz := by ring
    rw [h4]
  refine ⟨?_, ?_, ?_, ?_, ?_⟩
  · cases hc : layer.coefs? with
    | none => rw [identityRun_noaffine layer m hc]
    | some aff =>
        rw [identityRun_affine layer m aff hc]
        rfl
  · intro hc
    rw [reluRun_noaffine layer m hc]
    simp
  · intro aff hc hm
    rw [reluRun_affine_fresh layer m aff hc hm]
    exact ⟨rfl, by simp [defaultVarInfo]⟩
  · intro hc
    refine ⟨⟨layer.outputArr.shape, m.vars.length, nameVar layer.baseName "x"⟩,
      ⟨layer.outputArr.shape, m.vars.length + shapeSize layer.outputArr.shape,
        nameVar layer.baseName "exp_x"⟩,
      ⟨layer.outputArr.shape,
        m.vars.length + shapeSize layer.outputArr.shape
          + shapeSize layer.outputArr.shape, nameVar layer.baseName "exp_sum"⟩,
      rfl, rfl, rfl, ?_, ?_⟩
    · rw [siluRun_noaffine layer m hc hx he hu]
      simp only [addConstrList_vars, addMVar_vars]
      exact hrep3 _ _
    · rw [siluRun_noaffine layer m hc hx he hu]
      simp
  · intro aff hc hm
    refine ⟨⟨layer.outputArr.shape, m.vars.length, nameVar layer.baseName "mix"⟩,
      ⟨layer.outputArr.shape, m.vars.length + shapeSize layer.outputArr.shape,
        nameVar layer.baseName "x"⟩,
      ⟨layer.outputArr.shape,
        m.vars.length + shapeSize layer.outputArr.shape
          + shapeSize layer.outputArr.shape, nameVar layer.baseName "exp_x"⟩,
      ⟨layer.outputArr.shape,
        m.vars.length + shapeSize layer.outputArr.shape
          + shapeSize layer.outputArr.shape + shapeSize layer.outputArr.shape,
        nameVar layer.baseName "exp_sum"⟩,
      rfl, rfl, rfl, rfl, ?_, ?_⟩
    · rw [siluRun_affine_fresh layer m aff hc hm hx he hu]
    · rw [siluRun_affine_fresh layer m aff hc hm hx he hu]
      simp only [addConstrList_vars, addMVar_vars, addConstr_vars, update_vars]
      exact hrep4 _ _

/-- Witness for C8: the affine ReLU fixture creates exactly one continuous,
unbounded-below block of the output's size. -/
theorem claim_C8_witness :
    (ReLU.mipModel testLayerAffine testModel).model.vars
      = testModel.vars
          ++ List.replicate (shapeSize testLayerAffine.outputArr.shape)
              defaultVarInfo :=
  (((claim_C8 testLayerAffine testModel rfl rfl rfl).2.2.1) testAff rfl rfl).2

/-- Claim C10: no encoder mutates the layer's input array, weight matrix or
bias vector — the only layer attribute any encoder writes is `mixing` (the
result layer equals the input layer with at most the `mixing` attribute
changed) — and the only pre-existing variable data any encoder overwrites is
SiLU's `[0, 1]` bound write on the output array's variables. -/
theorem claim_C10 (layer : Layer) (m : GpModel)
    (hx : layer.xAttr = false) (he : layer.expXAttr = false)
    (hu : layer.expSumAttr = false)
    (hfresh : layer.coefs? = none ∨ layer.mixing? = none) :
    ((Identity.mipModel layer m).layer = layer
      ∧ (Identity.mipModel layer m).model.vars = m.vars)
    ∧ ((ReLU.mipModel layer m).layer
          = { layer with mixing? := (ReLU.mipModel layer m).layer.mixing? }
      ∧ ∀ i, i < m.vars.length →
          (ReLU.mipModel layer m).model.varAt i = m.varAt i)
    ∧ ((SiLU.mipModel layer m).layer
          = { layer with mixing? := (SiLU.mipModel layer m).layer.mixing? }
      ∧ ∀ i, i < m.vars.length → i ∉ layer.outputArr.ids →
          (SiLU.mipModel layer m).model.varAt i = m.varAt i) := by
  have hm0 : ∀ i, i < m.vars.length → i ∉ layer.outputArr.ids →
      ((m.setLb layer.outputArr 0).setUb layer.outputArr 1).varAt i = m.varAt i := by
    intro i hi hnot
    rw [varAt_setUb _ _ _ _ (by simpa using hi), varAt_setLb _ _ _ _ hi]
    simp [hnot]
  refine ⟨?_, ?_, ?_⟩
  · rcases Option.eq_none_or_eq_some layer.coefs? with hc | ⟨aff, hc⟩
    · rw [identityRun_noaffine layer m hc]
      exact ⟨rfl, rfl⟩
    · rw [identityRun_affine layer m aff hc]
      exact ⟨rfl, rfl⟩
  · have hnoaff : layer.coefs? = none →
        (ReLU.mipModel layer m).layer
            = { layer with mixing? := (ReLU.mipModel layer m).layer.mixing? }
          ∧ ∀ i, i < m.vars.length →
              (ReLU.mipModel layer m).model.varAt i = m.varAt i := by
      intro hc
      rw [reluRun_noaffine layer m hc]
      refine ⟨rfl, fun i hi => ?_⟩
      simp [GpModel.varAt]
    rcases hfresh with hc | hmix
    · exact hnoaff hc
    · rcases Option.eq_none_or_eq_some layer.coefs? with hc | ⟨aff, hc⟩
      · exact hnoaff hc
      · rw [reluRun_affine_fresh layer m aff hc hmix]
        refine ⟨rfl, fun i hi => ?_⟩
        simp only [GpModel.varAt, addConstrList_vars, addConstr_vars, update_vars,
          addMVar_vars]
        rw [getD_append_left _ _ _ _ hi]
  · have hnoaff : layer.coefs? = none →
        (SiLU.mipModel layer m).layer
            = { layer with mixing? := (SiLU.mipModel layer m).layer.mixing? }
          ∧ ∀ i, i < m.vars.length → i ∉ layer.outputArr.ids →
              (SiLU.mipModel layer m).model.varAt i = m.varAt i := by
      intro hc
      rw [siluRun_noaffine layer m hc hx he hu]
      refine ⟨rfl, fun i hi hnot => ?_⟩
      have := hm0 i hi hnot
      simp only [GpModel.varAt, addConstrList_vars, addMVar_vars]
      rw [getD_append_left _ _ _ _ (by simp; omega),
        getD_append_left _ _ _ _ (by simp; omega),
        getD_append_left _ _ _ _ (by simp; omega)]
      simpa [GpModel.varAt] using this
    rcases hfresh with hc | hmix
    · exact hnoaff hc
    · rcases Option.eq_none_or_eq_some layer.coefs? with hc | ⟨aff, hc⟩
      · exact hnoaff hc
      · rw [siluRun_affine_fresh layer m aff hc hmix hx he hu]
        refine ⟨rfl, fun i hi hnot => ?_⟩
        have := hm0 i hi hnot
        simp only [GpModel.varAt, addConstrList_vars, addMVar_vars, addConstr_vars,
          update_vars]
        rw [getD_append_left _ _ _ _ (by simp; omega),
          getD_append_left _ _ _ _ (by simp; omega),
          getD_append_left _ _ _ _ (by simp; omega),
          getD_append_left _ _ _ _ (by simp; omega)]
        simpa [GpModel.varAt] using this

/-- Claim C1: the constraints emitted by SiLU's `mip_model` — `negated ==
-mixing`, `exponentiated == exp(negated)`, `exp_plus_one == 1 +
exponentiated`, `output * exp_plus_one == 1`, elementwise over the output
shape — are jointly satisfiable exactly when `output[idx] = 1 / (1 +
exp(-mixing[idx]))` for every element index: the encoder models the logistic
sigmoid of the mixing value (raw input when no affine stage, the lazily
created mixing array otherwise), not the multiplicative SiLU/swish
function. -/
theorem claim_C1 (layer : Layer) (m : GpModel)
    (hx : layer.xAttr = false) (he : layer.expXAttr = false)
    (hu : layer.expSumAttr = false)
    (hin : layer.inputArr.start + layer.inputArr.size ≤ m.vars.length)
    (hout : layer.outputArr.start + layer.outputArr.size ≤ m.vars.length) :
    (layer.coefs? = none → layer.inputArr.shape = layer.outputArr.shape →
      (SiLU.mipModel layer m).model.constrs
        = m.constrs ++ siluConstrs layer.inputArr
            ⟨layer.outputArr.shape, m.vars.length, nameVar layer.baseName "x"⟩
            ⟨layer.outputArr.shape, m.vars.length + shapeSize layer.outputArr.shape,
              nameVar layer.baseName "exp_x"⟩
            ⟨layer.outputArr.shape,
              m.vars.length + shapeSize layer.outputArr.shape
                + shapeSize layer.outputArr.shape, nameVar layer.baseName "exp_sum"⟩
            layer.outputArr layer.baseName layer.outputArr.shape
      ∧ ∀ v : Nat → ℝ,
          (∃ w : Nat → ℝ, (∀ i, i < m.vars.length → w i = v i)
            ∧ satList w (siluConstrs layer.inputArr
                ⟨layer.outputArr.shape, m.vars.length, nameVar layer.baseName "x"⟩
                ⟨layer.outputArr.shape,
                  m.vars.length + shapeSize layer.outputArr.shape,
                  nameVar layer.baseName "exp_x"⟩
                ⟨layer.outputArr.shape,
                  m.vars.length + shapeSize layer.outputArr.shape
                    + shapeSize layer.outputArr.shape,
                  nameVar layer.baseName "exp_sum"⟩
                layer.outputArr layer.baseName layer.outputArr.shape))
          ↔ ∀ p < shapeSize layer.outputArr.shape,
              v (layer.outputArr.id p)
                = 1 / (1 + Real.exp (- v (layer.inputArr.id p))))
    ∧ (∀ aff, layer.coefs? = some aff → layer.mixing? = none →
        (SiLU.mipModel layer m).layer.mixing?
            = some ⟨layer.outputArr.shape, m.vars.length, nameVar layer.baseName "mix"⟩
        ∧ (SiLU.mipModel layer m).model.constrs
            = m.constrs
                ++ [Constr.affineEq
                    ⟨layer.outputArr.shape, m.vars.length, nameVar layer.baseName "mix"⟩
                    layer.inputArr aff.coefs aff.intercept]
                ++ siluConstrs
                    ⟨layer.outputArr.shape, m.vars.length, nameVar layer.baseName "mix"⟩
                    ⟨layer.outputArr.shape,
                      m.vars.length + shapeSize layer.outputArr.shape,
                      nameVar layer.baseName "x"⟩
                    ⟨layer.outputArr.shape,
                      m.vars.length + shapeSize layer.outputArr.shape
                        + shapeSize layer.outputArr.shape,
                      nameVar layer.baseName "exp_x"⟩
                    ⟨layer.outputArr.shape,
                      m.vars.length + shapeSize layer.outputArr.shape
                        + shapeSize layer.outputArr.shape
                        + shapeSize layer.outputArr.shape,
                      nameVar layer.baseName "exp_sum"⟩
                    layer.outputArr layer.baseName layer.outputArr.shape
        ∧ ∀ v : Nat → ℝ,
            (∃ w : Nat → ℝ,
              (∀ i, i < m.vars.length + shapeSize layer.outputArr.shape → w i = v i)
              ∧ satList w (siluConstrs
                  ⟨layer.outputArr.shape, m.vars.length, nameVar layer.baseName "mix"⟩
                  ⟨layer.outputArr.shape,
                    m.vars.length + shapeSize layer.outputArr.shape,
                    nameVar layer.baseName "x"⟩
                  ⟨layer.outputArr.shape,
                    m.vars.length + shapeSize layer.outputArr.shape
                      + shapeSize layer.outputArr.shape,
                    nameVar layer.baseName "exp_x"⟩
                  ⟨layer.outputArr.shape,
                    m.vars.length + shapeSize layer.outputArr.shape
                      + shapeSize layer.outputArr.shape
                      + shapeSize layer.outputArr.shape,
                    nameVar layer.baseName "exp_sum"⟩
                  layer.outputArr layer.baseName layer.outputArr.shape))
            ↔ ∀ p < shapeSize layer.outputArr.shape,
                v (layer.outputArr.id p)
                  = 1 / (1 + Real.exp (- v (MVar.id
                      ⟨layer.outputArr.shape, m.vars.length,
                        nameVar layer.baseName "mix"⟩ p)))) := by
  have houtN : layer.outputArr.start + shapeSize layer.outputArr.shape
      ≤ m.vars.length := hout
  constructor
  · intro hc hsh
    constructor
    · rw [siluRun_noaffine layer m hc hx he hu]
      simp
    · intro v
      exact siluConstrs_sat_iff layer.inputArr layer.outputArr layer.baseName
        layer.outputArr.shape m.vars.length (nameVar layer.baseName "x")
        (nameVar layer.baseName "exp_x") (nameVar layer.baseName "exp_sum")
        (by rw [← hsh]; exact hin) houtN v
  · intro aff hc hm
    refine ⟨?_, ?_, ?_⟩
    · rw [siluRun_affine_fresh layer m aff hc hm hx he hu]
    · rw [siluRun_affine_fresh layer m aff hc hm hx he hu]
      simp
    · intro v
      exact siluConstrs_sat_iff
        ⟨layer.outputArr.shape, m.vars.length, nameVar layer.baseName "mix"⟩
        layer.outputArr layer.baseName layer.outputArr.shape
        (m.vars.length + shapeSize layer.outputArr.shape)
        (nameVar layer.baseName "x") (nameVar layer.baseName "exp_x")
        (nameVar layer.baseName "exp_sum") (by simp) (by omega) v

/-- Witness for C1: at the no-affine fixture the emitted constraints are
exactly the four sigmoid-encoding families. -/
theorem claim_C1_witness :
    (SiLU.mipModel testLayerPlain testModel).model.constrs
      = testModel.constrs ++ siluConstrs testLayerPlain.inputArr
          ⟨testLayerPlain.outputArr.shape, testModel.vars.length,
            nameVar testLayerPlain.baseName "x"⟩
          ⟨testLayerPlain.outputArr.shape,
            testModel.vars.length + shapeSize testLayerPlain.outputArr.shape,
            nameVar testLayerPlain.baseName "exp_x"⟩
          ⟨testLayerPlain.outputArr.shape,
            testModel.vars.length + shapeSize testLayerPlain.outputArr.shape
              + shapeSize testLayerPlain.outputArr.shape,
            nameVar testLayerPlain.baseName "exp_sum"⟩
          testLayerPlain.outputArr testLayerPlain.baseName
          testLayerPlain.outputArr.shape :=
  ((claim_C1 testLayerPlain testModel rfl rfl rfl (by decide) (by decide)).1
    rfl rfl).1

/-- Counterexample for C3: invoking SiLU twice on the same no-affine context
is not idempotent — the second call creates three further auxiliary arrays
(six more variables here), so the variable count after two invocations
differs from the count after one. -/
theorem claim_C3_counterexample :
    (SiLU.mipModel (SiLU.mipModel testLayerPlain testModel).layer
        (SiLU.mipModel testLayerPlain testModel).model).model.vars.length
      ≠ (SiLU.mipModel testLayerPlain testModel).model.vars.length := by
  decide

/-- Claim C3 (amended): the `mixing` array is created at most once per
context, but re-invocation is not a no-op: on an affine context the second
ReLU call creates no variables yet re-adds the mixing-equality constraint (a
constraint already present) and then fails with an `UnboundLocalError`; on a
no-affine context the second SiLU call creates the three auxiliary arrays
again (they are never recorded on the layer), adding `3 · size` variables. -/
theorem claim_C3 (layer : Layer) (m : GpModel)
    (hx : layer.xAttr = false) (he : layer.expXAttr = false)
    (hu : layer.expSumAttr = false) :
    (∀ aff, layer.coefs? = some aff → layer.mixing? = none →
        0 < shapeSize layer.outputArr.shape →
        (ReLU.mipModel (ReLU.mipModel layer m).layer
            (ReLU.mipModel layer m).model).model.vars
          = (ReLU.mipModel layer m).model.vars
        ∧ (ReLU.mipModel (ReLU.mipModel layer m).layer
            (ReLU.mipModel layer m).model).err = some (.unboundLocal "mixing")
        ∧ ∃ c : Constr,
            c ∈ (ReLU.mipModel layer m).model.constrs
            ∧ (ReLU.mipModel (ReLU.mipModel layer m).layer
                (ReLU.mipModel layer m).model).model.constrs
              = (ReLU.mipModel layer m).model.constrs ++ [c])
    ∧ (layer.coefs? = none →
        (SiLU.mipModel (SiLU.mipModel layer m).layer
            (SiLU.mipModel layer m).model).model.vars.length
          = (SiLU.mipModel layer m).model.vars.length
              + 3 * shapeSize layer.outputArr.shape) := by
  constructor
  · intro aff hc hm hs
    have h1 := reluRun_affine_fresh layer m aff hc hm
    have hl1 : (ReLU.mipModel layer m).layer
        = { layer with mixing? := some ⟨layer.outputArr.shape, m.vars.length,
              nameVar layer.baseName "mix"⟩ } := by
      rw [h1]
    have h2 := reluRun_affine_stale
      ({ layer with mixing? := some ⟨layer.outputArr.shape, m.vars.length,
          nameVar layer.baseName "mix"⟩ })
      ((ReLU.mipModel layer m).model) aff
      ⟨layer.outputArr.shape, m.vars.length, nameVar layer.baseName "mix"⟩
      hc rfl hs
    rw [hl1, h2]
    refine ⟨by simp, rfl, ?_⟩
    refine ⟨Constr.affineEq ⟨layer.outputArr.shape, m.vars.length,
      nameVar layer.baseName "mix"⟩ layer.inputArr aff.coefs aff.intercept,
      ?_, by simp⟩
    rw [h1]
    simp
  · intro hc
    have hl1 : (SiLU.mipModel layer m).layer = layer := by
      rw [siluRun_noaffine layer m hc hx he hu]
    have h2 := siluRun_noaffine layer ((SiLU.mipModel layer m).model) hc hx he hu
    rw [hl1, h2]
    simp only [addConstrList_vars, addMVar_vars, List.length_append,
      List.length_replicate, setUb_vars_length, setLb_vars_length]
    omega

/-- Witness for the amended C3 at the no-affine fixture. -/
theorem claim_C3_witness :
    (SiLU.mipModel (SiLU.mipModel testLayerPlain testModel).layer
        (SiLU.mipModel testLayerPlain testModel).model).model.vars.length
      = (SiLU.mipModel testLayerPlain testModel).model.vars.length
          + 3 * shapeSize testLayerPlain.outputArr.shape :=
  (claim_C3 testLayerPlain testModel rfl rfl rfl).2 rfl

/-- Counterexample for C5: on a fully committed well-formed model, a SiLU
run ends with `refsOk = false` — some emitted constraint referenced a
variable array created after the last commit (`update`), so it is not true
that every encoder run commits each new array before referencing it. -/
theorem claim_C5_counterexample :
    (SiLU.mipModel testLayerPlain testModel).model.refsOk = false := by
  decide

/-- Claim C5 (amended): Identity and ReLU reference only committed variable
arrays in their constraints (a run started from a fully committed model
keeps `refsOk`), and the lazily created mixing array is committed by
`update()` before the affine constraint references it; but SiLU creates its
three auxiliary arrays after the last commit of the run and references them
in the elementwise constraints with no intervening commit, so its run ends
with `refsOk = false` whenever the output has at least one element. -/
theorem claim_C5 (layer : Layer) (m : GpModel)
    (hrefs : m.refsOk = true) (hcommit : m.committed = m.vars.length)
    (hin : layer.inputArr.start + layer.inputArr.size ≤ m.vars.length)
    (hout : layer.outputArr.start + layer.outputArr.size ≤ m.vars.length)
    (hmixwf : ∀ mv, layer.mixing? = some mv → mv.start + mv.size ≤ m.vars.length)
    (hshape : layer.coefs? = none → layer.inputArr.shape = layer.outputArr.shape)
    (hx : layer.xAttr = false) (he : layer.expXAttr = false)
    (hu : layer.expSumAttr = false) :
    (Identity.mipModel layer m).model.refsOk = true
    ∧ (ReLU.mipModel layer m).model.refsOk = true
    ∧ ((layer.coefs? = none ∨ layer.mixing? = none) →
        0 < shapeSize layer.outputArr.shape →
        (SiLU.mipModel layer m).model.refsOk = false) := by
  have hinN : layer.inputArr.start + shapeSize layer.inputArr.shape ≤ m.vars.length := hin
  have houtN : layer.outputArr.start + shapeSize layer.outputArr.shape ≤ m.vars.length :=
    hout
  refine ⟨?_, ?_, ?_⟩
  · rcases Option.eq_none_or_eq_some layer.coefs? with hc | ⟨aff, hc⟩
    · rw [identityRun_noaffine layer m hc]
      exact hrefs
    · rw [identityRun_affine layer m aff hc]
      rw [addConstr_refsOk, hcommit,
        affineEq_refs_ok layer.outputArr layer.inputArr aff.coefs aff.intercept
          m.vars.length hout hin, hrefs]
      rfl
  · rcases Option.eq_none_or_eq_some layer.coefs? with hc | ⟨aff, hc⟩
    · rw [reluRun_noaffine layer m hc]
      rw [addConstrList_refsOk, hcommit,
        reluConstrs_refs_ok layer.inputArr layer.outputArr layer.baseName
          layer.outputArr.shape m.vars.length
          (by rw [← hshape hc]; exact hinN) houtN, hrefs]
      rfl
    · rcases Option.eq_none_or_eq_some layer.mixing? with hm | ⟨mv, hm⟩
      · rw [reluRun_affine_fresh layer m aff hc hm]
        rw [addConstrList_refsOk]
        simp only [addConstr_refsOk, update_refsOk, addMVar_refsOk, addConstr_committed,
          update_committed, addMVar_vars, List.length_append, List.length_replicate]
        rw [affineEq_refs_ok _ layer.inputArr aff.coefs aff.intercept
            (m.vars.length + shapeSize layer.outputArr.shape)
            (by simp [MVar.size]) (by omega),
          reluConstrs_refs_ok _ layer.outputArr layer.baseName layer.outputArr.shape
            (m.vars.length + shapeSize layer.outputArr.shape)
            (by simp [MVar.size]) (by omega), hrefs]
        rfl
      · rw [reluRun_affine_stale_model layer m aff mv hc hm]
        rw [addConstr_refsOk, update_refsOk, update_committed,
          affineEq_refs_ok mv layer.inputArr aff.coefs aff.intercept m.vars.length
            (hmixwf mv hm) hin, hrefs]
        rfl
  · intro hfresh hs
    have hviol : ∀ (mix x expX expSum : MVar) (K : Nat), K ≤ x.start →
        (siluConstrs mix x expX expSum layer.outputArr layer.baseName
            layer.outputArr.shape).all (fun c => c.refs.all (· < K)) = false := by
      intro mix x expX expSum K hK
      rw [List.all_eq_false]
      refine ⟨Constr.linEqNeg (x.id 0) (mix.id 0),
        (mem_siluConstrs mix x expX expSum layer.outputArr layer.baseName
          layer.outputArr.shape 0 hs).1, ?_⟩
      simp only [Constr.refs, List.all_cons, List.all_nil, MVar.id, Bool.and_true,
        decide_eq_true_eq, Bool.and_eq_true, not_and]
      intro hlt
      omega
    rcases hfresh with hc | hmix
    · rw [siluRun_noaffine layer m hc hx he hu]
      rw [addConstrList_refsOk]
      simp only [addMVar_committed, setUb_committed, setLb_committed]
      rw [hviol _ _ _ _ m.committed (by rw [hcommit])]
      simp
    · rcases Option.eq_none_or_eq_some layer.coefs? with hc | ⟨aff, hc⟩
      · rw [siluRun_noaffine layer m hc hx he hu]
        rw [addConstrList_refsOk]
        simp only [addMVar_committed, setUb_committed, setLb_committed]
        rw [hviol _ _ _ _ m.committed (by rw [hcommit])]
        simp
      · rw [siluRun_affine_fresh layer m aff hc hmix hx he hu]
        rw [addConstrList_refsOk]
        simp only [addMVar_committed, addConstr_committed, update_committed,
          addMVar_vars, setUb_committed, setLb_committed, setUb_vars_length,
          setLb_vars_length, List.length_append, List.length_replicate]
        rw [hviol _ _ _ _ (m.vars.length + shapeSize layer.outputArr.shape)
          (Nat.le_refl _)]
        simp

/-- Witness for the amended C5 at the concrete fixtures. -/
theorem claim_C5_witness :
    (ReLU.mipModel testLayerAffine testModel).model.refsOk = true
    ∧ (SiLU.mipModel testLayerAffine testModel).model.refsOk = false :=
  ⟨(claim_C5 testLayerAffine testModel rfl rfl (by decide) (by decide)
      (fun mv h => by cases h) (fun h => by cases h) rfl rfl rfl).2.1,
   (claim_C5 testLayerAffine testModel rfl rfl (by decide) (by decide)
      (fun mv h => by cases h) (fun h => by cases h) rfl rfl rfl).2.2
     (Or.inr rfl) (by decide)⟩

/-- Witness for C10: at the affine fixture, Identity leaves the layer intact
and SiLU leaves input variable 0 untouched. -/
theorem claim_C10_witness :
    (Identity.mipModel testLayerAffine testModel).layer = testLayerAffine
    ∧ (SiLU.mipModel testLayerAffine testModel).model.varAt 0
        = testModel.varAt 0 :=
  ⟨(claim_C10 testLayerAffine testModel rfl rfl rfl (Or.inr rfl)).1.1,
   (claim_C10 testLayerAffine testModel rfl rfl rfl (Or.inr rfl)).2.2.2 0
     (by decide) (by decide)⟩

end GurobiML
